import Mathlib

/-!
Shallow embedding of `rockbox_theme_rescaler.py` (Rockbox Theme Rescaler).

Text is modelled as `List Char`, bytes as `List Nat`, and the Python floats
used as scale factors as exact rationals `ℚ`.  Each definition mirrors one
function (or one observable aspect of one function) of the Python source:

* `scale_value`            — `scale_value(val, factor)` (lines 68-75);
* `repl` / `replParts`     — the inner `repl` callback of `rescale_wps_file`
                             (lines 114-138), restricted to its text rewriting
                             (the `nimages` branch rewrites no text);
* `frameAlignFactor`       — the `nimages` branch of `repl` (lines 121-135),
                             returning `none` where the Python code raises
                             (`TypeError` on `None` height, `ZeroDivisionError`
                             on `nimages = 0`);
* `resize_bmp`             — the observable resize command built by
                             `resize_bmp` (lines 45-67);
* `mainEvents`             — the per-file dispatch loop of `main`
                             (lines 171-199), recording resize invocations;
* `utf8Decode`/`utf8Encode`/`latin1Decode`/`readText`/`rescaleFileBytes`
                           — the encoding behaviour of `rescale_wps_file`
                             (lines 90-93 and 141-142).
-/

namespace ThemeRescaler

/-- Python ASCII whitespace, the characters removed by `str.strip()`. -/
def isPySpace (c : Char) : Bool :=
  c == ' ' || c == '\t' || c == '\n' || c == '\r' || c == Char.ofNat 11 || c == Char.ofNat 12

/-- Python `s.strip()`: drop leading and trailing whitespace. -/
def pyStrip (s : List Char) : List Char :=
  ((s.dropWhile isPySpace).reverse.dropWhile isPySpace).reverse

/-- ASCII decimal digit test (`'0' <= c <= '9'`). -/
def isDigitCh (c : Char) : Bool := decide (48 ≤ c.toNat ∧ c.toNat ≤ 57)

/-- Numeric value of an ASCII digit. -/
def digitVal (c : Char) : Nat := c.toNat - 48

/-- Scanner for the remainder of a Python integer literal: a run of digits in
which a single underscore may appear between two digits (CPython's
`int(str)` digit grammar). -/
def parseDigitRest (acc : Nat) : List Char → Option Nat
  | [] => some acc
  | [c] => if isDigitCh c then some (acc * 10 + digitVal c) else none
  | c :: d :: rest =>
    if isDigitCh c then parseDigitRest (acc * 10 + digitVal c) (d :: rest)
    else if c = '_' ∧ isDigitCh d then parseDigitRest (acc * 10 + digitVal d) rest
    else none

/-- A nonempty digit run (underscores allowed between digits). -/
def parseDigits : List Char → Option Nat
  | [] => none
  | c :: rest => if isDigitCh c then parseDigitRest (digitVal c) rest else none

/-- Python `int(str)` after whitespace stripping: optional sign then digits. -/
def pyIntParseNoStrip : List Char → Option Int
  | [] => none
  | c :: rest =>
    if c = '+' then (parseDigits rest).map fun m => (m : Int)
    else if c = '-' then (parseDigits rest).map fun m => -(m : Int)
    else (parseDigits (c :: rest)).map fun m => (m : Int)

/-- Python `int(str)`: strip whitespace, optional sign, digit run; `none`
models a `ValueError`. -/
def pyIntParse (s : List Char) : Option Int := pyIntParseNoStrip (pyStrip s)

/-- Character for the digit `d` (`d < 10`). -/
def mkDigit : Nat → Char
  | 0 => '0'
  | 1 => '1'
  | 2 => '2'
  | 3 => '3'
  | 4 => '4'
  | 5 => '5'
  | 6 => '6'
  | 7 => '7'
  | 8 => '8'
  | _ => '9'

/-- Decimal rendering of a natural number, with fuel. -/
def natToCharsAux : Nat → Nat → List Char
  | 0, _ => []
  | fuel + 1, n => if n < 10 then [mkDigit n] else natToCharsAux fuel (n / 10) ++ [mkDigit (n % 10)]

/-- Decimal rendering of a natural number, as `str` renders it. -/
def natToChars (n : Nat) : List Char := natToCharsAux (n + 1) n

/-- Python `str(int)`: optional minus sign then decimal digits. -/
def intToChars (z : Int) : List Char :=
  if z < 0 then '-' :: natToChars z.natAbs else natToChars z.natAbs

/-- Python `int(float)` on an exact rational value: truncation toward zero. -/
def pyTrunc (q : ℚ) : Int := q.num.tdiv q.den

/-- `scale_value(val, factor)` of the source (lines 68-75): strip the value;
pass `-` and values ending in `%` through; otherwise parse an integer, scale
it and truncate, and on a parse failure return the (stripped) value. -/
def scale_value (val : List Char) (factor : ℚ) : List Char :=
  let v := pyStrip val
  if v = ['-'] then v
  else if v.getLast? = some '%' then v
  else
    match pyIntParse v with
    | some n => intToChars (pyTrunc ((n : ℚ) * factor))
    | none => v

/-! ### Supporting lemmas about stripping and parsing -/

theorem dropWhile_self {α : Type} (p : α → Bool) (l : List α) :
    (l.dropWhile p).dropWhile p = l.dropWhile p := by
  induction l with
  | nil => rfl
  | cons a t ih =>
    by_cases hp : p a
    · simp [List.dropWhile_cons, hp, ih]
    · simp [List.dropWhile_cons, hp]

theorem head?_dropWhile {α : Type} {p : α → Bool} {l : List α} {c : α}
    (h : (l.dropWhile p).head? = some c) : p c = false := by
  induction l with
  | nil => simp at h
  | cons a t ih =>
    by_cases hp : p a
    · rw [List.dropWhile_cons] at h; simp [hp] at h; exact ih h
    · rw [List.dropWhile_cons] at h
      simp [hp] at h
      rw [← h]
      exact Bool.eq_false_iff.mpr hp

theorem dropWhile_eq_self {α : Type} {p : α → Bool} {l : List α}
    (h : ∀ c, l.head? = some c → p c = false) : l.dropWhile p = l := by
  cases l with
  | nil => rfl
  | cons a t =>
    have := h a rfl
    simp [List.dropWhile_cons, this]

theorem pyStrip_idem (s : List Char) : pyStrip (pyStrip s) = pyStrip s := by
  have hhead : ∀ c, (pyStrip s).head? = some c → isPySpace c = false := by
    intro c hc
    have hsplit : s.dropWhile isPySpace =
        pyStrip s ++ ((s.dropWhile isPySpace).reverse.takeWhile isPySpace).reverse := by
      conv_lhs => rw [← List.reverse_reverse (s.dropWhile isPySpace),
        ← List.takeWhile_append_dropWhile (p := isPySpace) (l := (s.dropWhile isPySpace).reverse)]
      rw [List.reverse_append]
      rfl
    have hA : (s.dropWhile isPySpace).head? = some c := by
      rw [hsplit, List.head?_append, hc]
      rfl
    exact head?_dropWhile hA
  have h1 : (pyStrip s).dropWhile isPySpace = pyStrip s := dropWhile_eq_self hhead
  show ((((pyStrip s).dropWhile isPySpace).reverse).dropWhile isPySpace).reverse = pyStrip s
  rw [h1]
  show (((((s.dropWhile isPySpace).reverse.dropWhile isPySpace).reverse).reverse).dropWhile
    isPySpace).reverse = pyStrip s
  rw [List.reverse_reverse, dropWhile_self]
  rfl

theorem mem_pyStrip {c : Char} {s : List Char} (h : c ∈ pyStrip s) : c ∈ s := by
  unfold pyStrip at h
  rw [List.mem_reverse] at h
  have h2 := (List.dropWhile_sublist (l := (s.dropWhile isPySpace).reverse) isPySpace).mem h
  rw [List.mem_reverse] at h2
  exact (List.dropWhile_sublist (l := s) isPySpace).mem h2

theorem parseDigitRest_last : ∀ (acc : Nat) (l : List Char) (n : Nat),
    parseDigitRest acc l = some n → ∀ c, l.getLast? = some c → isDigitCh c = true := by
  intro acc l
  induction acc, l using parseDigitRest.induct with
  | case1 acc =>
    intro n h c hc
    simp at hc
  | case2 acc c' hdig =>
    intro n h c hc
    simp at hc
    rw [← hc]
    exact hdig
  | case3 acc c' hdig =>
    intro n h c hc
    simp only [parseDigitRest] at h
    rw [if_neg hdig] at h
    exact absurd h (by simp)
  | case4 acc c' d rest hdig ih =>
    intro n h c hc
    simp only [parseDigitRest] at h
    rw [if_pos hdig] at h
    rw [List.getLast?_cons_cons] at hc
    exact ih n h c hc
  | case5 acc c' d rest hdig hcond ih =>
    intro n h c hc
    simp only [parseDigitRest] at h
    rw [if_neg hdig, if_pos hcond] at h
    cases rest with
    | nil =>
      simp at hc
      rw [← hc]
      exact hcond.2
    | cons b t =>
      rw [List.getLast?_cons_cons, List.getLast?_cons_cons] at hc
      exact ih n h c hc
  | case6 acc c' d rest hdig hcond =>
    intro n h c hc
    simp only [parseDigitRest] at h
    rw [if_neg hdig, if_neg hcond] at h
    exact absurd h (by simp)

theorem parseDigits_last {m : Nat} {l : List Char} (h : parseDigits l = some m)
    {c : Char} (hc : l.getLast? = some c) : isDigitCh c = true := by
  cases l with
  | nil => simp at hc
  | cons a t =>
    rw [parseDigits] at h
    by_cases hd : isDigitCh a
    · rw [if_pos hd] at h
      cases t with
      | nil =>
        simp at hc
        rw [← hc]
        exact hd
      | cons b t' =>
        rw [List.getLast?_cons_cons] at hc
        exact parseDigitRest_last _ _ _ h c hc
    · rw [if_neg hd] at h
      exact absurd h (by simp)

theorem pyIntParseNoStrip_last {z : Int} {u : List Char}
    (h : pyIntParseNoStrip u = some z) : ∃ c, u.getLast? = some c ∧ isDigitCh c = true := by
  cases u with
  | nil => simp [pyIntParseNoStrip] at h
  | cons a t =>
    rw [pyIntParseNoStrip] at h
    by_cases hplus : a = '+'
    · rw [if_pos hplus] at h
      cases ht : parseDigits t with
      | none => rw [ht] at h; simp at h
      | some m =>
        cases t with
        | nil => simp [parseDigits] at ht
        | cons b t' =>
          have hlast : (b :: t').getLast?.isSome = true := List.getLast?_isSome.mpr (by simp)
          obtain ⟨c, hc⟩ := Option.isSome_iff_exists.mp hlast
          refine ⟨c, ?_, parseDigits_last ht hc⟩
          rw [hplus, List.getLast?_cons_cons]
          exact hc
    · rw [if_neg hplus] at h
      by_cases hminus : a = '-'
      · rw [if_pos hminus] at h
        cases ht : parseDigits t with
        | none => rw [ht] at h; simp at h
        | some m =>
          cases t with
          | nil => simp [parseDigits] at ht
          | cons b t' =>
            have hlast : (b :: t').getLast?.isSome = true := List.getLast?_isSome.mpr (by simp)
            obtain ⟨c, hc⟩ := Option.isSome_iff_exists.mp hlast
            refine ⟨c, ?_, parseDigits_last ht hc⟩
            rw [hminus, List.getLast?_cons_cons]
            exact hc
      · rw [if_neg hminus] at h
        cases ht : parseDigits (a :: t) with
        | none => rw [ht] at h; simp at h
        | some m =>
          have hlast : (a :: t).getLast?.isSome = true := List.getLast?_isSome.mpr (by simp)
          obtain ⟨c, hc⟩ := Option.isSome_iff_exists.mp hlast
          exact ⟨c, hc, parseDigits_last ht hc⟩

theorem scale_value_of_unscalable {v : List Char} {f : ℚ}
    (h : pyStrip v = ['-'] ∨ (pyStrip v).getLast? = some '%' ∨ pyIntParse (pyStrip v) = none) :
    scale_value v f = pyStrip v := by
  unfold scale_value
  by_cases h1 : pyStrip v = ['-']
  · simp [h1]
  · rw [if_neg h1]
    by_cases h2 : (pyStrip v).getLast? = some '%'
    · simp [h2]
    · rw [if_neg h2]
      rcases h with h | h | h
      · exact absurd h h1
      · exact absurd h h2
      · rw [h]

theorem scale_value_of_parse {v : List Char} {f : ℚ} {n : Int}
    (h : pyIntParse v = some n) : scale_value v f = intToChars (pyTrunc ((n : ℚ) * f)) := by
  unfold scale_value
  have hns : pyIntParseNoStrip (pyStrip v) = some n := h
  by_cases h1 : pyStrip v = ['-']
  · rw [h1] at hns
    simp [pyIntParseNoStrip, parseDigits] at hns
  · rw [if_neg h1]
    obtain ⟨c, hc, hdig⟩ := pyIntParseNoStrip_last hns
    by_cases h2 : (pyStrip v).getLast? = some '%'
    · rw [h2] at hc
      injection hc with hc
      rw [← hc] at hdig
      simp [isDigitCh] at hdig
    · rw [if_neg h2]
      have hfin : pyIntParse (pyStrip v) = some n := by
        rw [pyIntParse, pyStrip_idem]
        exact hns
      rw [hfin]

/-! ### Claims C7, C8, C9 - the Value Scaler -/

/-- C7 counterexample: the claim says the Value Scaler returns its input
unchanged whenever the trimmed input equals the sentinel `-`; on the input
`" - "` the code returns the trimmed `"-"`, which differs from the input. -/
theorem scale_value_returns_trimmed_not_input :
    scale_value " - ".data (3/2) = "-".data ∧ "-".data ≠ " - ".data := by
  constructor
  · decide
  · decide

/-- C7 (amended): for every factor, when the trimmed value equals the
sentinel `-`, ends with `%`, or fails to parse as an integer, `scale_value`
returns the whitespace-trimmed input unchanged - never an error. -/
theorem scale_value_sentinel_passthrough (v : List Char) (f : ℚ)
    (h : pyStrip v = ['-'] ∨ (pyStrip v).getLast? = some '%' ∨ pyIntParse (pyStrip v) = none) :
    scale_value v f = pyStrip v :=
  scale_value_of_unscalable h

/-- C7 witness: the amended theorem applied to the `%`-suffixed value `50%`. -/
theorem scale_value_sentinel_passthrough_witness :
    ((pyStrip "50%".data).getLast? = some '%') ∧
      scale_value "50%".data (3/2) = pyStrip "50%".data :=
  ⟨by decide, scale_value_sentinel_passthrough _ _ (Or.inr (Or.inl (by decide)))⟩

unseal Rat.mul Rat.inv in
/-- C8: for every input string parsing as an integer `n`, `scale_value`
multiplies `n` by the factor and truncates toward zero, rendering the result
in decimal; in particular `scale("10", 1.5) = "15"` and
`scale("7", 1.5) = "10"`. -/
theorem scale_value_truncates_toward_zero :
    (∀ (v : List Char) (f : ℚ) (n : Int), pyIntParse v = some n →
        scale_value v f = intToChars (pyTrunc ((n : ℚ) * f)))
    ∧ scale_value "10".data (3/2) = "15".data
    ∧ scale_value "7".data (3/2) = "10".data :=
  ⟨fun _ _ _ h => scale_value_of_parse h, by decide, by decide⟩

unseal Rat.mul Rat.inv in
/-- C8 witness: the universally quantified part applied to the input `7`
with factor `3/2`. -/
theorem scale_value_truncates_toward_zero_witness :
    pyIntParse "7".data = some 7 ∧
      scale_value "7".data (3/2) = intToChars (pyTrunc ((7 : ℚ) * (3/2))) :=
  ⟨by decide, scale_value_truncates_toward_zero.1 "7".data (3/2) 7 (by decide)⟩

unseal Rat.mul Rat.inv in
/-- C9 counterexample: the Value Scaler is not idempotent - applying it twice
with factor `3/2` to `10` yields `22`, while one application yields `15`. -/
theorem scale_value_not_idempotent :
    scale_value (scale_value "10".data (3/2)) (3/2) = "22".data ∧
      scale_value "10".data (3/2) = "15".data ∧ "22".data ≠ "15".data := by
  refine ⟨by decide, by decide, by decide⟩

/-- C9 (amended): `scale_value` is pure and idempotent on values it leaves
unscaled - the sentinel `-`, `%`-suffixed values, and values that fail to
parse as integers. -/
theorem scale_value_idempotent_on_unscaled (v : List Char) (f : ℚ)
    (h : pyStrip v = ['-'] ∨ (pyStrip v).getLast? = some '%' ∨ pyIntParse (pyStrip v) = none) :
    scale_value (scale_value v f) f = scale_value v f := by
  have h1 : scale_value v f = pyStrip v := scale_value_of_unscalable h
  have hcond : pyStrip (pyStrip v) = ['-'] ∨ (pyStrip (pyStrip v)).getLast? = some '%' ∨
      pyIntParse (pyStrip (pyStrip v)) = none := by
    rw [pyStrip_idem]
    exact h
  have h2 : scale_value (pyStrip v) f = pyStrip (pyStrip v) := scale_value_of_unscalable hcond
  rw [h1, h2, pyStrip_idem]

/-- C9 witness: idempotence at the non-numeric value `auto`. -/
theorem scale_value_idempotent_on_unscaled_witness :
    pyIntParse (pyStrip "auto".data) = none ∧
      scale_value (scale_value "auto".data (3/2)) (3/2) = scale_value "auto".data (3/2) :=
  ⟨by decide, scale_value_idempotent_on_unscaled _ _ (Or.inr (Or.inr (by decide)))⟩

/-! ### The tag rewriting machinery of rescale_wps_file -/

/-- Python `s.split(",")`: split at every comma; no separator yields the
whole string as the single field. -/
def splitComma : List Char → List (List Char)
  | [] => [[]]
  | c :: rest =>
    if c = ',' then [] :: splitComma rest
    else (c :: (splitComma rest).headD []) :: (splitComma rest).tail

/-- Python `",".join(tokens)`. -/
def joinComma : List (List Char) → List Char
  | [] => []
  | [t] => t
  | t :: u :: ts => t ++ ',' :: joinComma (u :: ts)

/-- The parameter names treated as spatial by `rescale_wps_file` (the list
literal on line 118 of the source). -/
def spatialNames : List (List Char) :=
  ["x".data, "y".data, "width".data, "height".data, "xpos".data, "ypos".data,
   "maxwidth".data, "maxheight".data]

/-- The tag table `patterns` of `rescale_wps_file` (lines 97-110). -/
def patterns : List (List Char × List (List Char)) :=
  [("%V".data,  ["x".data, "y".data, "width".data, "height".data, "fontid".data]),
   ("%Vl".data, ["id".data, "x".data, "y".data, "width".data, "height".data, "fontid".data]),
   ("%Vi".data, ["label".data, "x".data, "y".data, "width".data, "height".data, "fontid".data]),
   ("%dr".data, ["x".data, "y".data, "width".data, "height".data, "colour1".data, "colour2".data]),
   ("%pb".data, ["x".data, "y".data, "width".data, "height".data, "filename".data]),
   ("%pv".data, ["x".data, "y".data, "width".data, "height".data, "filename".data]),
   ("%x".data,  ["label".data, "filename".data, "x".data, "y".data]),
   ("%xl".data, ["label".data, "filename".data, "x".data, "y".data, "nimages".data]),
   ("%Cl".data, ["xpos".data, "ypos".data, "maxwidth".data, "maxheight".data, "halign".data,
     "valign".data]),
   ("%T".data,  ["label".data, "x".data, "y".data, "width".data, "height".data, "action".data,
     "options".data]),
   ("%Lb".data, ["viewport".data, "width".data, "height".data, "tile".data]),
   ("%XX".data, ["x".data, "y".data, "width".data, "height".data, "filename".data,
     "options".data])]

/-- The transformation the `repl` callback applies to the token at index `i`
(source lines 116-120): a spatial parameter is scaled with `factor_x` when
its name contains the character `x` and with `factor_y` otherwise, except
that a `%xl` tag with exactly five tokens is left unscaled; every other
token - opaque parameters, the `nimages` token, and tokens beyond the
parameter list - is returned unchanged. -/
def replToken (key : List Char) (params : List (List Char)) (fx fy : ℚ)
    (nparts : Nat) (i : Nat) (tok : List Char) : List Char :=
  (params.get? i).elim tok fun name =>
    if name ∈ spatialNames ∧ ¬(key = "%xl".data ∧ nparts = 5) then
      scale_value tok (if 'x' ∈ name then fx else fy)
    else tok

/-- `replToken` applied along a token list, tracking the index. -/
def replTokensAux (key : List Char) (params : List (List Char)) (fx fy : ℚ)
    (nparts : Nat) : Nat → List (List Char) → List (List Char)
  | _, [] => []
  | i, t :: ts =>
    replToken key params fx fy nparts i t :: replTokensAux key params fx fy nparts (i + 1) ts

/-- The token-list rewriting of the `repl` callback. -/
def replParts (key : List Char) (params : List (List Char)) (fx fy : ℚ)
    (parts : List (List Char)) : List (List Char) :=
  replTokensAux key params fx fy parts.length 0 parts

/-- The full `repl` callback of `rescale_wps_file` on the text between the
parentheses of one tag occurrence (source lines 114-138): split on commas,
strip each token, rewrite the tokens, and reassemble
`key ++ "(" ++ ",".join(parts) ++ ")"`. -/
def repl (key : List Char) (params : List (List Char)) (fx fy : ℚ)
    (inner : List Char) : List Char :=
  key ++ '(' :: joinComma (replParts key params fx fy ((splitComma inner).map pyStrip)) ++ [')']

/-! ### Supporting lemmas about splitting and joining -/

theorem splitComma_ne_nil (s : List Char) : splitComma s ≠ [] := by
  cases s with
  | nil => simp [splitComma]
  | cons c rest =>
    by_cases h : c = ','
    · simp [splitComma, h]
    · simp [splitComma, h]

theorem splitComma_nocomma {t : List Char} (h : ',' ∉ t) : splitComma t = [t] := by
  induction t with
  | nil => rfl
  | cons c rest ih =>
    have hc : ¬c = ',' := fun hc => h (hc ▸ List.mem_cons_self c rest)
    have hr : splitComma rest = [rest] := ih fun hm => h (List.mem_cons_of_mem c hm)
    simp [splitComma, hc, hr]

theorem splitComma_append {t : List Char} (r : List Char) (h : ',' ∉ t) :
    splitComma (t ++ ',' :: r) = t :: splitComma r := by
  induction t with
  | nil => simp [splitComma]
  | cons c rest ih =>
    have hc : ¬c = ',' := fun hc => h (hc ▸ List.mem_cons_self c rest)
    have hr := ih fun hm => h (List.mem_cons_of_mem c hm)
    simp [splitComma, hc, hr]

theorem mem_splitComma_nocomma {x : List Char} {s : List Char}
    (h : x ∈ splitComma s) : ',' ∉ x := by
  induction s generalizing x with
  | nil =>
    simp [splitComma] at h
    simp [h]
  | cons c rest ih =>
    by_cases hc : c = ','
    · simp [splitComma, hc] at h
      rcases h with h | h
      · simp [h]
      · exact ih h
    · simp only [splitComma, if_neg hc] at h
      rcases List.mem_cons.mp h with h | h
      · cases hr : splitComma rest with
        | nil => exact absurd hr (splitComma_ne_nil rest)
        | cons t ts =>
          rw [hr] at h
          simp at h
          intro hmem
          rw [h] at hmem
          rcases List.mem_cons.mp hmem with h2 | h2
          · exact hc h2.symm
          · exact ih (hr ▸ List.mem_cons_self t ts) h2
      · cases hr : splitComma rest with
        | nil => exact absurd hr (splitComma_ne_nil rest)
        | cons t ts =>
          rw [hr] at h
          exact ih (hr ▸ List.mem_cons_of_mem t h)

theorem splitComma_joinComma : ∀ ts : List (List Char), ts ≠ [] →
    (∀ t ∈ ts, ',' ∉ t) → splitComma (joinComma ts) = ts := by
  intro ts
  induction ts using joinComma.induct with
  | case1 => intro h; exact absurd rfl h
  | case2 t =>
    intro _ h
    rw [joinComma]
    exact splitComma_nocomma (h t (List.mem_cons_self t []))
  | case3 t u ts ih =>
    intro _ h
    rw [joinComma, splitComma_append _ (h t (List.mem_cons_self t _))]
    rw [ih (by simp) fun t' ht' => h t' (List.mem_cons_of_mem t ht')]

/-! ### Supporting lemmas about the token rewrite -/

theorem isDigitCh_mkDigit (d : Nat) : isDigitCh (mkDigit d) = true := by
  rcases d with _ | _ | _ | _ | _ | _ | _ | _ | _ | _ <;> rfl

theorem mem_natToCharsAux {c : Char} : ∀ {fuel n : Nat},
    c ∈ natToCharsAux fuel n → isDigitCh c = true := by
  intro fuel
  induction fuel with
  | zero => intro n h; simp [natToCharsAux] at h
  | succ fuel ih =>
    intro n h
    rw [natToCharsAux] at h
    by_cases hn : n < 10
    · rw [if_pos hn] at h
      simp at h
      rw [h]
      exact isDigitCh_mkDigit n
    · rw [if_neg hn] at h
      rcases List.mem_append.mp h with h | h
      · exact ih h
      · simp at h
        rw [h]
        exact isDigitCh_mkDigit (n % 10)

theorem comma_not_mem_intToChars (z : Int) : ',' ∉ intToChars z := by
  intro h
  unfold intToChars at h
  have hdig : isDigitCh ',' = true := by
    by_cases hz : z < 0
    · rw [if_pos hz] at h
      rcases List.mem_cons.mp h with h | h
      · exact absurd h (by decide)
      · exact mem_natToCharsAux h
    · rw [if_neg hz] at h
      exact mem_natToCharsAux h
  exact absurd hdig (by decide)

theorem comma_not_mem_scale_value {tok : List Char} (f : ℚ) (h : ',' ∉ tok) :
    ',' ∉ scale_value tok f := by
  cases hp : pyIntParse (pyStrip tok) with
  | none =>
    rw [scale_value_of_unscalable (Or.inr (Or.inr hp))]
    exact fun hm => h (mem_pyStrip hm)
  | some n =>
    have hp' : pyIntParse tok = some n := by
      rw [pyIntParse, pyStrip_idem] at hp
      exact hp
    rw [scale_value_of_parse hp']
    exact comma_not_mem_intToChars _

theorem replToken_of_none {key : List Char} {params : List (List Char)} {fx fy : ℚ}
    {nparts i : Nat} {tok : List Char} (hpi : params.get? i = none) :
    replToken key params fx fy nparts i tok = tok := by
  unfold replToken
  rw [hpi]
  rfl

theorem replToken_of_some {key : List Char} {params : List (List Char)} {fx fy : ℚ}
    {nparts i : Nat} {tok name : List Char} (hpi : params.get? i = some name) :
    replToken key params fx fy nparts i tok =
      if name ∈ spatialNames ∧ ¬(key = "%xl".data ∧ nparts = 5) then
        scale_value tok (if 'x' ∈ name then fx else fy)
      else tok := by
  unfold replToken
  rw [hpi]
  rfl

theorem replTokensAux_length (key : List Char) (params : List (List Char)) (fx fy : ℚ)
    (nparts : Nat) : ∀ (i : Nat) (ts : List (List Char)),
    (replTokensAux key params fx fy nparts i ts).length = ts.length := by
  intro i ts
  induction ts generalizing i with
  | nil => rfl
  | cons t ts ih => simp [replTokensAux, ih]

theorem replTokensAux_get? (key : List Char) (params : List (List Char)) (fx fy : ℚ)
    (nparts : Nat) : ∀ (ts : List (List Char)) (i j : Nat),
    (replTokensAux key params fx fy nparts i ts).get? j =
      (ts.get? j).map (replToken key params fx fy nparts (i + j)) := by
  intro ts
  induction ts with
  | nil => intro i j; simp [replTokensAux]
  | cons t ts ih =>
    intro i j
    cases j with
    | zero => simp [replTokensAux]
    | succ j =>
      simp only [replTokensAux, List.get?_cons_succ, ih (i + 1) j]
      rw [Nat.add_assoc, Nat.add_comm 1 j]

theorem mem_replTokensAux {key : List Char} {params : List (List Char)} {fx fy : ℚ}
    {nparts : Nat} : ∀ {ts : List (List Char)} {i : Nat} {t : List Char},
    t ∈ replTokensAux key params fx fy nparts i ts →
    ∃ tok ∈ ts, t = tok ∨ ∃ g, t = scale_value tok g := by
  intro ts
  induction ts with
  | nil => intro i t h; simp [replTokensAux] at h
  | cons u ts ih =>
    intro i t h
    rcases List.mem_cons.mp h with h | h
    · refine ⟨u, List.mem_cons_self u ts, ?_⟩
      cases hpi : params.get? i with
      | none => exact Or.inl (by rw [h, replToken_of_none hpi])
      | some name =>
        by_cases hcond : name ∈ spatialNames ∧ ¬(key = "%xl".data ∧ nparts = 5)
        · exact Or.inr ⟨if 'x' ∈ name then fx else fy,
            by rw [h, replToken_of_some hpi, if_pos hcond]⟩
        · exact Or.inl (by rw [h, replToken_of_some hpi, if_neg hcond])
    · obtain ⟨tok, htok, hor⟩ := ih h
      exact ⟨tok, List.mem_cons_of_mem u htok, hor⟩

/-! ### Claims C3 and C6 - axis assignment and round-trip structure -/

unseal Rat.mul Rat.inv in
/-- C3 counterexample: the claim says the spatial parameter `width` (a
horizontal pixel quantity) is scaled by `factor_x`; with `factor_x = 2` and
`factor_y = 3` the code scales the `width` token `10` of a `%V` tag to `30`
(the vertical factor), not to `20 = scale_value "10" factor_x`. -/
theorem width_scaled_by_vertical_factor :
    ("%V".data, ["x".data, "y".data, "width".data, "height".data, "fontid".data]) ∈ patterns ∧
    (replParts "%V".data ["x".data, "y".data, "width".data, "height".data, "fontid".data] 2 3
        ["10".data, "10".data, "10".data, "10".data, "f".data]).get? 2 = some "30".data ∧
    scale_value "10".data 2 = "20".data ∧ "30".data ≠ "20".data :=
  ⟨by decide, by decide, by decide, by decide⟩

/-- C3 (amended): for every tag, parameter list and token list, a spatial
parameter is scaled by `factor_x` exactly when its name contains the letter
`x` - that is, `x`, `xpos`, `maxwidth` and `maxheight` scale by `factor_x`,
while `y`, `ypos`, `width` and `height` scale by `factor_y` - except that a
`%xl` tag with exactly five tokens scales nothing. -/
theorem axis_assignment_by_substring (key : List Char) (params : List (List Char))
    (fx fy : ℚ) (parts : List (List Char)) (i : Nat) (name : List Char)
    (hname : params.get? i = some name) (hsp : name ∈ spatialNames)
    (hxl : ¬(key = "%xl".data ∧ parts.length = 5)) :
    (replParts key params fx fy parts).get? i =
      (parts.get? i).map (fun tok => scale_value tok
        (if name ∈ ["x".data, "xpos".data, "maxwidth".data, "maxheight".data] then fx
         else fy)) := by
  rw [replParts, replTokensAux_get?]
  simp only [Nat.zero_add]
  cases hp : parts.get? i with
  | none => rfl
  | some tok =>
    simp only [Option.map_some']
    rw [replToken_of_some hname, if_pos ⟨hsp, hxl⟩]
    have hax : (if 'x' ∈ name then fx else fy) =
        (if name ∈ ["x".data, "xpos".data, "maxwidth".data, "maxheight".data] then fx
         else fy) := by
      have hsp' : name = "x".data ∨ name = "y".data ∨ name = "width".data ∨
          name = "height".data ∨ name = "xpos".data ∨ name = "ypos".data ∨
          name = "maxwidth".data ∨ name = "maxheight".data := by
        simpa [spatialNames] using hsp
      rcases hsp' with h | h | h | h | h | h | h | h <;> subst h <;>
        first
        | rw [if_pos (by decide), if_pos (by decide)]
        | rw [if_neg (by decide), if_neg (by decide)]
    rw [hax]

/-- C3 witness: the amended theorem applied to the `maxheight` parameter of a
`%Cl` tag, which contains `x` and is therefore scaled by `factor_x`. -/
theorem axis_assignment_by_substring_witness :
    (["xpos".data, "ypos".data, "maxwidth".data, "maxheight".data, "halign".data,
        "valign".data].get? 3 = some "maxheight".data) ∧
    "maxheight".data ∈ spatialNames ∧
    (replParts "%Cl".data
        ["xpos".data, "ypos".data, "maxwidth".data, "maxheight".data, "halign".data,
          "valign".data] 2 3
        ["1".data, "2".data, "3".data, "4".data, "5".data, "6".data]).get? 3 =
      (["1".data, "2".data, "3".data, "4".data, "5".data, "6".data].get? 3).map
        (fun tok => scale_value tok
          (if "maxheight".data ∈ ["x".data, "xpos".data, "maxwidth".data, "maxheight".data]
           then 2 else 3)) :=
  ⟨by decide, by decide,
    axis_assignment_by_substring "%Cl".data _ 2 3 _ 3 "maxheight".data (by decide) (by decide)
      (by decide)⟩

unseal Rat.mul Rat.inv in
/-- C6 counterexample: the claim says only the values of spatial parameters
change; with both factors equal to `1` no spatial value changes, yet the
opaque `fontid` token `" f "` of a `%V` occurrence is rewritten to `"f"`
(its surrounding whitespace is stripped). -/
theorem opaque_value_changed_by_rewrite :
    ("%V".data, ["x".data, "y".data, "width".data, "height".data, "fontid".data]) ∈ patterns ∧
    repl "%V".data ["x".data, "y".data, "width".data, "height".data, "fontid".data] 1 1
        " 1,2,3,4, f ".data = "%V(1,2,3,4,f)".data ∧
    (splitComma " 1,2,3,4, f ".data).get? 4 = some " f ".data ∧
    (splitComma "1,2,3,4,f".data).get? 4 = some "f".data ∧
    " f ".data ≠ "f".data ∧ "fontid".data ∉ spatialNames :=
  ⟨by decide, by decide, by decide, by decide, by decide, by decide⟩

/-- C6 (amended): rewriting a tag occurrence preserves the keyword, the
argument count and the argument order, and every argument is trimmed of its
surrounding whitespace; beyond that trimming, only spatial-parameter values
change.  The rewritten occurrence is the keyword followed by the
parenthesised, comma-joined token list; splitting it back yields exactly the
rewritten tokens, one per input token, and every position that is not a
scaled spatial parameter carries the trimmed input token unchanged. -/
theorem tag_rewrite_preserves_structure (key : List Char) (params : List (List Char))
    (fx fy : ℚ) (inner : List Char) :
    ∃ outParts,
      repl key params fx fy inner = key ++ '(' :: joinComma outParts ++ [')'] ∧
      splitComma (joinComma outParts) = outParts ∧
      outParts.length = (splitComma inner).length ∧
      ∀ i, (∃ name, params.get? i = some name ∧ name ∈ spatialNames ∧
              ¬(key = "%xl".data ∧ (splitComma inner).length = 5)) ∨
        outParts.get? i = ((splitComma inner).map pyStrip).get? i := by
  refine ⟨replParts key params fx fy ((splitComma inner).map pyStrip), rfl, ?_, ?_, ?_⟩
  · apply splitComma_joinComma
    · have hlen : (replParts key params fx fy ((splitComma inner).map pyStrip)).length =
          (splitComma inner).length := by
        rw [replParts, replTokensAux_length, List.length_map]
      intro hnil
      have := splitComma_ne_nil inner
      rw [hnil] at hlen
      simp at hlen
      exact this (List.length_eq_zero.mp hlen.symm)
    · intro t ht
      obtain ⟨tok, htok, hor⟩ := mem_replTokensAux ht
      obtain ⟨orig, horig, hstrip⟩ := List.mem_map.mp htok
      have hcomma : ',' ∉ tok := by
        rw [← hstrip]
        exact fun hm => mem_splitComma_nocomma horig (mem_pyStrip hm)
      rcases hor with h | ⟨g, h⟩
      · rw [h]; exact hcomma
      · rw [h]; exact comma_not_mem_scale_value g hcomma
  · rw [replParts, replTokensAux_length, List.length_map]
  · intro i
    cases hpi : params.get? i with
    | none =>
      right
      rw [replParts, replTokensAux_get?]
      simp only [Nat.zero_add]
      cases hp : ((splitComma inner).map pyStrip).get? i with
      | none => rfl
      | some tok => simp only [Option.map_some', replToken_of_none hpi]
    | some name =>
      by_cases hcond : name ∈ spatialNames ∧
          ¬(key = "%xl".data ∧ ((splitComma inner).map pyStrip).length = 5)
      · left
        refine ⟨name, rfl, hcond.1, ?_⟩
        rw [List.length_map] at hcond
        exact hcond.2
      · right
        rw [replParts, replTokensAux_get?]
        simp only [Nat.zero_add]
        cases hp : ((splitComma inner).map pyStrip).get? i with
        | none => rfl
        | some tok => simp only [Option.map_some', replToken_of_some hpi, if_neg hcond]

/-- C6 witness: the round-trip theorem applied to the occurrence
`%pb(10,20,100,50,bg.bmp)` with both factors `3/2`. -/
theorem tag_rewrite_preserves_structure_witness :
    ∃ outParts,
      repl "%pb".data ["x".data, "y".data, "width".data, "height".data, "filename".data]
          (3/2) (3/2) "10,20,100,50,bg.bmp".data =
        "%pb".data ++ '(' :: joinComma outParts ++ [')'] ∧
      splitComma (joinComma outParts) = outParts ∧
      outParts.length = (splitComma "10,20,100,50,bg.bmp".data).length ∧
      ∀ i, (∃ name,
              ["x".data, "y".data, "width".data, "height".data, "filename".data].get? i =
                some name ∧ name ∈ spatialNames ∧
              ¬("%pb".data = "%xl".data ∧ (splitComma "10,20,100,50,bg.bmp".data).length = 5)) ∨
        outParts.get? i = ((splitComma "10,20,100,50,bg.bmp".data).map pyStrip).get? i :=
  tag_rewrite_preserves_structure "%pb".data
    ["x".data, "y".data, "width".data, "height".data, "filename".data] (3/2) (3/2)
    "10,20,100,50,bg.bmp".data

/-! ### The frame alignment rule, the bitmap resize policy, and the main loop -/

/-- Python `str.isdigit()` restricted to ASCII: nonempty and all digits. -/
def pyIsDigit (s : List Char) : Bool := !s.isEmpty && s.all isDigitCh

/-- Numeric value of an all-digit string (Python `int` on an `isdigit` string). -/
def digitsToNat (s : List Char) : Nat := s.foldl (fun acc c => acc * 10 + digitVal c) 0

/-- The frame-alignment computation of the `nimages` branch of `repl`
(source lines 123-135): from the referenced image's height (`none` when
`get_image_height` returned `None`), the global factors and the raw
`nimages` token, compute the factor passed (for both axes) to `resize_bmp`.
`none` models the places where the Python code raises: a `TypeError` at
`original_height * factor_y` when the height is `None`, and a
`ZeroDivisionError` at `scaled_height % nimages` when `nimages` is `0`
(or at the division by `original_height`, unreachable, when it is `0`). -/
def frameAlignFactor (original_height : Option Nat) (factor_x factor_y : ℚ)
    (nimagesField : List Char) : Option ℚ :=
  match original_height with
  | none => none
  | some oh =>
    let scaled_height : Int := pyTrunc ((oh : ℚ) * factor_y)
    let nimages : Int := if pyIsDigit nimagesField then (digitsToNat nimagesField : Int) else 1
    if nimages = 0 then none
    else if scaled_height % nimages ≠ 0 then
      if oh = 0 then none
      else some (((Int.fdiv scaled_height nimages * nimages : Int) : ℚ) / (oh : ℚ))
    else some factor_x

/-- The observable resize command `resize_bmp` issues for one asset. -/
structure ResizeOp where
  percent : Int
  filterUsed : List Char
  monochromePass : Bool
deriving DecidableEq

set_option linter.unusedVariables false in
/-- `resize_bmp` of the source (lines 45-67): the resize percentage passed to
the external tool is `int(factor[0] * 100)`, the filter is `Point` for widths
of at most 32 pixels and the caller's background filter otherwise, and the
monochrome quantisation pass runs exactly when the bit depth is 1.  Line 50
of the source reassigns `factor = (1.5, 1.5)`, discarding the caller's
argument; the inner `let factor` mirrors that reassignment. -/
def resize_bmp (width : Int) (bit_depth : Int) (factor : ℚ × ℚ)
    (filter_bg : List Char) : ResizeOp :=
  let factor : ℚ × ℚ := (3/2, 3/2)
  { percent := pyTrunc (factor.1 * 100)
  , filterUsed := if width ≤ 32 then "Point".data else filter_bg
  , monochromePass := decide (bit_depth = 1) }

/-- The resize percentage `int(factor[0] * 100)` that a factor pair requests,
as `resize_bmp` would compute it from its argument without the line-50
reassignment. -/
def requestedPercent (factor : ℚ × ℚ) : Int := pyTrunc (factor.1 * 100)

/-- One file in enumeration order, as the loop of `main` sees it: a bitmap
asset, a theme file (together with the asset paths its frame-aware tag
handling resizes, in order), or any other file. -/
inductive FileEntry where
  | bmp (path : String)
  | theme (touched : List String)
  | other

/-- The dispatch loop of `main` (source lines 175-199), returning the resize
invocations (asset paths, in order) for a given enumeration and an initial
`already_processed` list: a `.bmp` file is resized unless its path is in
`already_processed` (and is not recorded); a theme file's frame-aware
handling resizes each touched asset unconditionally and appends the touched
paths to `already_processed` afterwards; other files are copied, not
resized. -/
def mainEvents : List FileEntry → List String → List String
  | [], _ => []
  | FileEntry.bmp p :: rest, already =>
    if p ∈ already then mainEvents rest already
    else p :: mainEvents rest already
  | FileEntry.theme touched :: rest, already =>
    touched ++ mainEvents rest (already ++ touched)
  | FileEntry.other :: rest, already => mainEvents rest already

/-! ### Claims C1, C2, C4, C5 -/

unseal Rat.mul Rat.inv in
/-- C1 (code bug): `resize_bmp` does not apply the caller-supplied factor:
requesting the identity factor `(1, 1)` still resizes by `150%`, because
line 50 substitutes the fixed constant `(1.5, 1.5)` for the requested
factor. -/
theorem resize_bmp_ignores_requested_factor :
    (resize_bmp 100 8 (1, 1) "Lanczos".data).percent = 150 ∧
    requestedPercent (1, 1) = 100 ∧ (150 : Int) ≠ 100 :=
  ⟨by decide, by decide, by decide⟩

unseal Rat.mul Rat.inv in
/-- C2 (code bug): with `originalHeight = 100`, `factor_y = 3/2` and
`nimages = 7`, the frame-alignment rule computes `scaledHeight = 150`,
selects the largest multiple `147` of `7` below it and derives the adjusted
factor `147/100`; the adjusted factor is passed symmetrically to
`resize_bmp`, but the line-50 override makes the actual resize `150%`
instead of the requested `147%`, so the adjusted factor is not used for the
asset's resize. -/
theorem frame_alignment_factor_overridden :
    frameAlignFactor (some 100) (3/2) (3/2) "7".data = some (147/100) ∧
    (resize_bmp 100 8 (147/100, 147/100) "Lanczos".data).percent = 150 ∧
    requestedPercent (147/100, 147/100) = 147 ∧ (150 : Int) ≠ 147 :=
  ⟨by decide, by decide, by decide, by decide⟩

unseal Rat.mul Rat.inv in
/-- C4 (code bug): the frame-alignment rule is not total.  A frame-count
token `"0"` passes `isdigit` and yields `nimages = 0`, on which the Python
code raises `ZeroDivisionError` at `scaled_height % nimages`; an unreadable
asset height (`get_image_height` returning `None`) makes it raise
`TypeError` at `original_height * factor_y`.  Both failure cases are
modelled by `none`.  A non-numeric frame count does default to `1` and the
rule then succeeds with the global factor. -/
theorem frame_alignment_not_total :
    frameAlignFactor (some 100) (3/2) (3/2) "0".data = none ∧
    frameAlignFactor none (3/2) (3/2) "7".data = none ∧
    frameAlignFactor (some 100) (3/2) (3/2) "abc".data = some (3/2) :=
  ⟨by decide, by decide, by decide⟩

/-- C5 (code bug): deduplication is one-directional and order-dependent.
When the enumeration lists a sprite bitmap before the theme file whose
frame-aware tag references it, the generic dispatch resizes it first
(`already_processed` is still empty) and the frame-aware path resizes it
again: two resizes for one asset.  With the theme file first, the recorded
path makes the generic dispatch skip it, and the asset is resized once. -/
theorem asset_resized_twice_when_bmp_first :
    (mainEvents [FileEntry.bmp "sprite.bmp", FileEntry.theme ["sprite.bmp"]] []).count
        "sprite.bmp" = 2 ∧
    (mainEvents [FileEntry.theme ["sprite.bmp"], FileEntry.bmp "sprite.bmp"] []).count
        "sprite.bmp" = 1 :=
  ⟨by decide, by decide⟩

/-! ### Text encoding of rescale_wps_file and the regex substitution -/

/-- Strict UTF-8 decoder on byte lists: the code points, or `none` on any
malformed sequence (Python's `utf-8` decode raising `UnicodeDecodeError`). -/
def utf8Decode : List Nat → Option (List Char)
  | [] => some []
  | b :: rest =>
    if b < 0x80 then (utf8Decode rest).map (fun s => Char.ofNat b :: s)
    else if b < 0xC2 then none
    else if b < 0xE0 then
      match rest with
      | b1 :: rest' =>
        if 0x80 ≤ b1 ∧ b1 < 0xC0 then
          (utf8Decode rest').map (fun s => Char.ofNat ((b - 0xC0) * 0x40 + (b1 - 0x80)) :: s)
        else none
      | [] => none
    else if b < 0xF0 then
      match rest with
      | b1 :: b2 :: rest' =>
        if (0x80 ≤ b1 ∧ b1 < 0xC0) ∧ (0x80 ≤ b2 ∧ b2 < 0xC0) ∧
            ¬(b = 0xE0 ∧ b1 < 0xA0) ∧ ¬(b = 0xED ∧ 0xA0 ≤ b1) then
          (utf8Decode rest').map (fun s =>
            Char.ofNat ((b - 0xE0) * 0x1000 + (b1 - 0x80) * 0x40 + (b2 - 0x80)) :: s)
        else none
      | _ => none
    else if b < 0xF5 then
      match rest with
      | b1 :: b2 :: b3 :: rest' =>
        if (0x80 ≤ b1 ∧ b1 < 0xC0) ∧ (0x80 ≤ b2 ∧ b2 < 0xC0) ∧ (0x80 ≤ b3 ∧ b3 < 0xC0) ∧
            ¬(b = 0xF0 ∧ b1 < 0x90) ∧ ¬(b = 0xF4 ∧ 0x90 ≤ b1) then
          (utf8Decode rest').map (fun s =>
            Char.ofNat ((b - 0xF0) * 0x40000 + (b1 - 0x80) * 0x1000 +
              (b2 - 0x80) * 0x40 + (b3 - 0x80)) :: s)
        else none
      | _ => none
    else none

/-- Latin-1 decode: every byte is the code point of its own value; it never
fails, which is why the fallback on line 93 always succeeds. -/
def latin1Decode (bytes : List Nat) : List Char := bytes.map (fun b => Char.ofNat b)

/-- Lines 90-93 of the source: try UTF-8 first, fall back to Latin-1 on a
decode error. -/
def readText (bytes : List Nat) : List Char :=
  match utf8Decode bytes with
  | some s => s
  | none => latin1Decode bytes

/-- UTF-8 encoding of one code point. -/
def utf8EncodeChar (c : Nat) : List Nat :=
  if c < 0x80 then [c]
  else if c < 0x800 then [0xC0 + c / 0x40, 0x80 + c % 0x40]
  else if c < 0x10000 then [0xE0 + c / 0x1000, 0x80 + c / 0x40 % 0x40, 0x80 + c % 0x40]
  else [0xF0 + c / 0x40000, 0x80 + c / 0x1000 % 0x40, 0x80 + c / 0x40 % 0x40, 0x80 + c % 0x40]

/-- UTF-8 encoding of a text, as `write_text(text, encoding="utf-8")` emits
it (line 142 of the source). -/
def utf8Encode : List Char → List Nat
  | [] => []
  | c :: s => utf8EncodeChar c.toNat ++ utf8Encode s

/-- Literal keyword match at the head of the text: the remainder after
`pat`, if the text starts with `pat`. -/
def matchKeyword : List Char → List Char → Option (List Char)
  | [], rest => some rest
  | _ :: _, [] => none
  | k :: ks, c :: cs => if c = k then matchKeyword ks cs else none

/-- The shortest-match argument scan of the regex `KEY\((.*?)\)`: characters
up to the first `)`; fail at a newline (`.` does not match newlines) or at
the end of the input. -/
def takeInner : List Char → Option (List Char × List Char)
  | [] => none
  | c :: rest =>
    if c = ')' then some ([], rest)
    else if c = '\n' then none
    else
      match takeInner rest with
      | some (inner, rest') => some (c :: inner, rest')
      | none => none

/-- `re.sub` of one pattern `KEY\((.*?)\)` with the `repl` callback, with
fuel (one unit per input character suffices): scan left to right, replace
every non-overlapping occurrence, copy every other character. -/
def regexSubFuel (key : List Char) (params : List (List Char)) (fx fy : ℚ) :
    Nat → List Char → List Char
  | 0, cs => cs
  | _ + 1, [] => []
  | fuel + 1, c :: cs =>
    match matchKeyword (key ++ ['(']) (c :: cs) with
    | some rest =>
      match takeInner rest with
      | some (inner, rest') =>
        repl key params fx fy inner ++ regexSubFuel key params fx fy fuel rest'
      | none => c :: regexSubFuel key params fx fy fuel cs
    | none => c :: regexSubFuel key params fx fy fuel cs

/-- `regex.sub(repl, text)` for one pattern (line 139 of the source). -/
def regexSub (key : List Char) (params : List (List Char)) (fx fy : ℚ)
    (text : List Char) : List Char :=
  regexSubFuel key params fx fy text.length text

/-- Lines 112-139 of the source: every pattern of the tag table applied to
the whole text, in table order. -/
def rescaleText (fx fy : ℚ) (text : List Char) : List Char :=
  patterns.foldl (fun t kp => regexSub kp.1 kp.2 fx fy t) text

/-- `rescale_wps_file` on one file's bytes (lines 90-93, 112-139, 141-142):
decode with UTF-8 and the Latin-1 fallback, rewrite the tags, and write the
result encoded as UTF-8. -/
def rescaleFileBytes (fx fy : ℚ) (bytes : List Nat) : List Nat :=
  utf8Encode (rescaleText fx fy (readText bytes))

/-! ### Claim C10 -/

/-- C10: the rewritten theme file is always written UTF-8, also after the
Latin-1 fallback.  The single byte `0xE9` is not valid UTF-8, so reading
falls back to Latin-1 and yields the one-character text `é` (code point
233); the text contains no tag and no value is scaled, yet the output bytes
are the UTF-8 encoding `[0xC3, 0xA9]` - different from the input bytes. -/
theorem latin1_input_reencoded_as_utf8 :
    utf8Decode [0xE9] = none ∧
    readText [0xE9] = [Char.ofNat 233] ∧
    rescaleFileBytes (3/2) (3/2) [0xE9] = [0xC3, 0xA9] ∧
    [(0xC3 : Nat), 0xA9] ≠ [0xE9] :=
  ⟨by decide, by decide, by decide, by decide⟩

end ThemeRescaler
